import Mathlib

/-!
Verification of the stack data structures and the two stack-based
algorithms (infix-to-postfix conversion and bracket-balance checking)
of this repository, against its design document.

The embedding mirrors the TypeScript sources:
  - `Stack` models the bounded generic stack of `src/data structure/stack.ts`
    (capacity `MAX_SIZE = 9`, overflow-checked `push`, underflow-checked
    `pop`, `peek`, and `undo` backed by a `_poppedHistory` list);
  - `BalancedStack` / `isBalanced` model `src/data structure/BalancedStack.ts`
    (unbounded push, module-level shared stack instance threaded
    explicitly as state);
  - `ConvStack` / `convert` model `src/algorithms/InfixToPostfixAlgorithm.ts`
    (unbounded push, `precedence`, `isOperator`, and the Shunting-Yard
    `convert` method; the closing-bracket loop of `convert` has no
    emptiness guard in the source, so the total model returns `none`
    exactly where the source loop would run forever, and a fuelled
    variant `closeLoopFuel` witnesses that divergence).

Stacks are lists with the head as the top element.  The JavaScript
backing array `elements[0..topLevel]` is observed only through
`push`/`pop`/`peek`, so the live prefix is represented directly;
`topLevel = count - 1` and `length = count` are derived.  The
`_poppedHistory` array is pushed at its end and popped from its end in
the source, so its reversal is modelled with the most recent pop at the
head of the `history` list.
-/

/-- Capacity constant `MAX_SIZE` of `src/data structure/stack.ts`. -/
def MAX_SIZE : Nat := 9

/-- The bounded generic stack of `src/data structure/stack.ts`:
the live element prefix (head = top) and the `_poppedHistory` list
(head = most recently popped value). -/
structure Stack (T : Type) where
  elements : List T
  history : List T
deriving Repr, DecidableEq

namespace Stack

variable {T : Type}

/-- The constructor: `elements = []`, `topLevel = -1`, `length = 0`,
`_poppedHistory = []`. -/
def empty : Stack T := ⟨[], []⟩

/-- The `length` field, kept equal to the number of live elements. -/
def count (s : Stack T) : Nat := s.elements.length

/-- `Stack.push`: refuses (logging only, no mutation) when
`topLevel >= MAX_SIZE - 1`, i.e. when `count ≥ MAX_SIZE`; otherwise
stores the value at the new top. -/
def push (s : Stack T) (v : T) : Stack T :=
  if MAX_SIZE ≤ s.elements.length then s
  else ⟨v :: s.elements, s.history⟩

/-- `Stack.pop`: on an empty stack logs underflow and returns
`undefined` with no mutation; otherwise removes the top value, records
it in `_poppedHistory`, and returns it. -/
def pop (s : Stack T) : Option T × Stack T :=
  match s.elements with
  | [] => (none, s)
  | v :: rest => (some v, ⟨rest, v :: s.history⟩)

/-- `Stack.peek`: the top value, `undefined` when empty, no mutation. -/
def peek (s : Stack T) : Option T :=
  match s.elements with
  | [] => none
  | v :: _ => some v

/-- `Stack.undo`: removes the most recent `_poppedHistory` entry first,
then delegates to `push` (whose overflow check may silently drop the
value), and returns the removed entry whenever the history was
non-empty. -/
def undo (s : Stack T) : Option T × Stack T :=
  match s.history with
  | [] => (none, s)
  | v :: h => (some v, Stack.push ⟨s.elements, h⟩ v)

/-- Pushing a list of values in order, as a caller issuing successive
`push` calls. -/
def pushAll (s : Stack T) (vs : List T) : Stack T :=
  vs.foldl Stack.push s

/-- Issuing `n` successive `pop` calls and collecting the returned
values in call order (empty pops return nothing and are skipped in the
collected list, matching `undefined` results). -/
def popN (s : Stack T) : Nat → List T × Stack T
  | 0 => ([], s)
  | n + 1 =>
    match pop s with
    | (some v, s') =>
      let r := popN s' n
      (v :: r.1, r.2)
    | (none, s') =>
      let r := popN s' n
      (r.1, r.2)

end Stack

/-- The unbounded stack of `src/data structure/BalancedStack.ts`: same
fields as `Stack`, but its `push` performs no capacity check. -/
structure BalancedStack where
  elements : List Char
  history : List Char
deriving Repr, DecidableEq

namespace BalancedStack

/-- The constructor of `BalancedStack`. -/
def empty : BalancedStack := ⟨[], []⟩

/-- `BalancedStack.push`: unconditionally stores the value at the new
top (the source has no overflow check). -/
def push (s : BalancedStack) (c : Char) : BalancedStack :=
  ⟨c :: s.elements, s.history⟩

/-- `BalancedStack.pop`: as `Stack.pop`, recording the removed value in
`_poppedHistory`. -/
def pop (s : BalancedStack) : Option Char × BalancedStack :=
  match s.elements with
  | [] => (none, s)
  | c :: rest => (some c, ⟨rest, c :: s.history⟩)

/-- `BalancedStack.isEmpty`: `topLevel < 0`, i.e. no live elements. -/
def isEmpty (s : BalancedStack) : Bool :=
  s.elements.isEmpty

end BalancedStack

/-- The mismatch test of `isBalanced`: the popped top fails to match the
closing glyph, comparing popped value against the expected opener
exactly as the three-way disjunction in the source does. -/
def balancedMismatch (c : Char) (top : Option Char) : Bool :=
  (c == ')' && top != some '(') ||
  (c == '}' && top != some '{') ||
  (c == ']' && top != some '[')

/-- The character loop of `isBalanced`, threading the module-level
`balancedStack` instance explicitly as state (the source mutates a
global `BalancedStack` shared by every call). -/
def isBalancedLoop : BalancedStack → List Char → Bool × BalancedStack
  | st, [] => (st.isEmpty, st)
  | st, c :: cs =>
    if c == '(' || c == '{' || c == '[' then
      isBalancedLoop (st.push c) cs
    else if c == ')' || c == '}' || c == ']' then
      if st.isEmpty then (false, st)
      else
        let r := st.pop
        if balancedMismatch c r.1 then (false, r.2)
        else isBalancedLoop r.2 cs
    else
      isBalancedLoop st cs

/-- The function `isBalanced` of `src/data structure/BalancedStack.ts`,
taking the current state of the shared `balancedStack` and returning
the boolean result together with the state the global is left in. -/
def isBalanced (st : BalancedStack) (expression : String) : Bool × BalancedStack :=
  isBalancedLoop st expression.data

/-- Bracket kinds of the design document (§3): Paren, Square, Curly. -/
inductive BracketKind
  | paren
  | square
  | curly
deriving Repr, DecidableEq

/-- The kind of an opening-bracket glyph, `none` on any other character. -/
def openKind? (c : Char) : Option BracketKind :=
  if c = '(' then some .paren
  else if c = '[' then some .square
  else if c = '{' then some .curly
  else none

/-- The kind of a closing-bracket glyph, `none` on any other character. -/
def closeKind? (c : Char) : Option BracketKind :=
  if c = ')' then some .paren
  else if c = ']' then some .square
  else if c = '}' then some .curly
  else none

/-- The kind of an opening bracket as a total function (meaningful only
on the three opener glyphs, which is all the balance checker ever
pushes). -/
def openKindOf (c : Char) : BracketKind :=
  if c = '[' then .square
  else if c = '{' then .curly
  else .paren

/-- The balance-checking algorithm exactly as §4.3 of the design
document words it, over a stack of tagged `BracketKind` values: push
opening brackets tagged by kind; on a closing bracket fail immediately
when the stack is empty, otherwise pop and compare the popped kind with
the closing glyph's kind, mismatch failing immediately; ignore
non-bracket characters; at the end balanced iff the stack is empty.
Stated from the specification's words to be compared with the source
embedding `isBalanced`. -/
def specBalancedLoop : List BracketKind → List Char → Bool
  | ks, [] => ks.isEmpty
  | ks, c :: cs =>
    match openKind? c with
    | some k => specBalancedLoop (k :: ks) cs
    | none =>
      match closeKind? c with
      | some k =>
        match ks with
        | [] => false
        | k' :: ks' => if k' = k then specBalancedLoop ks' cs else false
      | none => specBalancedLoop ks cs

/-- The specification-side balance check, started from an empty stack. -/
def specBalanced (expression : String) : Bool :=
  specBalancedLoop [] expression.data

/-- The unbounded operator stack of
`src/algorithms/InfixToPostfixAlgorithm.ts`: same shape as
`BalancedStack` (its `push` has no overflow check either). -/
structure ConvStack where
  elements : List Char
  history : List Char
deriving Repr, DecidableEq

namespace ConvStack

/-- The constructor of `InfixToPostfixStack`. -/
def empty : ConvStack := ⟨[], []⟩

/-- `InfixToPostfixStack.push`: unconditional, no capacity check. -/
def push (s : ConvStack) (c : Char) : ConvStack :=
  ⟨c :: s.elements, s.history⟩

/-- `InfixToPostfixStack.pop`: underflow-checked, recording the removed
value in `_poppedHistory`. -/
def pop (s : ConvStack) : Option Char × ConvStack :=
  match s.elements with
  | [] => (none, s)
  | c :: rest => (some c, ⟨rest, c :: s.history⟩)

/-- `InfixToPostfixStack.isEmpty`. -/
def isEmpty (s : ConvStack) : Bool :=
  s.elements.isEmpty

end ConvStack

/-- `InfixToPostfixStack.isOperator`: exactly the four characters
`+ - * /`. -/
def isOperator (c : Char) : Bool :=
  c == '+' || c == '-' || c == '*' || c == '/'

/-- `InfixToPostfixStack.precedence`: `+`/`-` give 1, `*`/`/` give 2,
every other character gives 0. -/
def precedence (c : Char) : Nat :=
  if c == '+' || c == '-' then 1
  else if c == '*' || c == '/' then 2
  else 0

/-- Opening-bracket test of `convert` (first branch of its scan). -/
def isOpeningBracket (c : Char) : Bool :=
  c == '(' || c == '{' || c == '['

/-- Closing-bracket test of `convert` (second branch of its scan). -/
def isClosingBracket (c : Char) : Bool :=
  c == ')' || c == '}' || c == ']'

/-- The closing-bracket loop of `convert`:
`while (peek() is not an opener) output += pop()`, over the stack's
element list (first argument), history (second) and the output
accumulated so far (third, a character list concatenated into the final
string).  The source loop has no emptiness guard: when the stack
empties, `peek()` returns `undefined`, which differs from every opener,
and the empty `pop()` leaves the stack unchanged, so the source loop
never exits — this total model returns `none` at exactly that point
(see `closeLoopFuel` for the iteration-counted form of that loop). -/
def closeLoop : List Char → List Char → List Char → Option (List Char × List Char × List Char)
  | [], _hist, _out => none
  | t :: rest, hist, out =>
    if isOpeningBracket t then some (out, t :: rest, hist)
    else closeLoop rest (t :: hist) (out ++ [t])

/-- The closing-bracket loop of `convert` with an explicit iteration
budget, mirroring the source iteration by iteration: on an empty stack
the loop body still runs, `postfixExpression += this.pop()` appends the
JavaScript string `"undefined"` to the output, and the stack state is
unchanged, so the next iteration sees the same stack. -/
def closeLoopFuel : Nat → List Char → List Char → List Char → Option (List Char × List Char × List Char)
  | 0, _, _, _ => none
  | n + 1, els, hist, out =>
    match els with
    | [] => closeLoopFuel n [] hist (out ++ "undefined".data)
    | t :: rest =>
      if isOpeningBracket t then some (out, t :: rest, hist)
      else closeLoopFuel n rest (t :: hist) (out ++ [t])

/-- The operator loop of `convert`:
`while (!isEmpty() and precedence(peek()) >= precedence(c)) output += pop()`,
returning the output, remaining elements and history. -/
def opLoop : List Char → List Char → List Char → Char → List Char × List Char × List Char
  | [], hist, out, _c => (out, [], hist)
  | t :: rest, hist, out, c =>
    if precedence c ≤ precedence t then opLoop rest (t :: hist) (out ++ [t]) c
    else (out, t :: rest, hist)

/-- The final loop of `convert`:
`while (!isEmpty()) output += pop()`. -/
def drainAll : List Char → List Char → List Char → List Char × List Char
  | [], hist, out => (out, hist)
  | t :: rest, hist, out => drainAll rest (t :: hist) (out ++ [t])

/-- The character scan of `convert`, in the source's branch order:
opening bracket (push), closing bracket (pop to output until an opener
is on top, then `pop()` discards that opener), operator (pop while the
top's precedence is at least the scanned operator's, then push), any
other character (append to output).  `none` marks the state in which
the source's closing-bracket loop never terminates. -/
def convertLoop : ConvStack → List Char → List Char → Option (List Char × ConvStack)
  | st, out, [] => some (out, st)
  | st, out, c :: cs =>
    if isOpeningBracket c then
      convertLoop (st.push c) out cs
    else if isClosingBracket c then
      match closeLoop st.elements st.history out with
      | none => none
      | some (out', els, hist) =>
        convertLoop (ConvStack.pop ⟨els, hist⟩).2 out' cs
    else if isOperator c then
      let r := opLoop st.elements st.history out c
      convertLoop (ConvStack.push ⟨r.2.1, r.2.2⟩ c) r.1 cs
    else
      convertLoop st (out ++ [c]) cs

/-- `InfixToPostfixStack.convert`: scans the expression, then drains
the remaining stack into the output; returns the postfix string and the
state the stack instance is left in, or `none` when the source would
loop forever in the closing-bracket case. -/
def convert (st : ConvStack) (expression : String) : Option (String × ConvStack) :=
  match convertLoop st [] expression.data with
  | none => none
  | some (out, st') =>
    let r := drainAll st'.elements st'.history out
    some (String.mk r.1, ⟨[], r.2⟩)

section StackLemmas

variable {T : Type}

theorem stack_push_lt (s : Stack T) (v : T) (h : s.elements.length < MAX_SIZE) :
    Stack.push s v = ⟨v :: s.elements, s.history⟩ := by
  unfold Stack.push
  rw [if_neg (by omega)]

theorem stack_pushAll_elements (vs : List T) (s : Stack T)
    (h : s.elements.length + vs.length ≤ MAX_SIZE) :
    (Stack.pushAll s vs).elements = vs.reverse ++ s.elements ∧
      (Stack.pushAll s vs).history = s.history := by
  induction vs generalizing s with
  | nil => simp [Stack.pushAll]
  | cons v vs ih =>
    have hlt : s.elements.length < MAX_SIZE := by
      simp at h; omega
    have hstep : Stack.push s v = ⟨v :: s.elements, s.history⟩ :=
      stack_push_lt s v hlt
    have h' : (Stack.push s v).elements.length + vs.length ≤ MAX_SIZE := by
      rw [hstep]; simp at h ⊢; omega
    have := ih (Stack.push s v) h'
    constructor
    · rw [Stack.pushAll, List.foldl_cons, ← Stack.pushAll, this.1, hstep]
      simp
    · rw [Stack.pushAll, List.foldl_cons, ← Stack.pushAll, this.2, hstep]

theorem stack_popN_of_elements (l : List T) (s : Stack T) (h : s.elements = l) :
    (Stack.popN s l.length).1 = l := by
  induction l generalizing s with
  | nil => simp [Stack.popN]
  | cons v rest ih =>
    have hpop : Stack.pop s = (some v, ⟨rest, v :: s.history⟩) := by
      unfold Stack.pop; rw [h]
    simp only [List.length_cons, Stack.popN, hpop]
    rw [ih ⟨rest, v :: s.history⟩ rfl]

end StackLemmas

theorem balanced_refines (cs : List Char) : ∀ st : BalancedStack,
    (∀ c ∈ st.elements, c = '(' ∨ c = '{' ∨ c = '[') →
    (isBalancedLoop st cs).1 = specBalancedLoop (st.elements.map openKindOf) cs := by
  induction cs with
  | nil =>
    intro st _hst
    obtain ⟨els, hist⟩ := st
    cases els <;> rfl
  | cons c cs ih =>
    intro st hst
    obtain ⟨els, hist⟩ := st
    by_cases hopen : (c == '(' || c == '{' || c == '[') = true
    · have hc : c = '(' ∨ c = '{' ∨ c = '[' := by
        simp only [Bool.or_eq_true, beq_iff_eq] at hopen
        tauto
      have hk : openKind? c = some (openKindOf c) := by
        rcases hc with rfl | rfl | rfl <;> rfl
      rw [show isBalancedLoop ⟨els, hist⟩ (c :: cs) =
            isBalancedLoop (BalancedStack.push ⟨els, hist⟩ c) cs from by
        simp only [isBalancedLoop]; rw [if_pos hopen]]
      rw [show specBalancedLoop (List.map openKindOf els) (c :: cs) =
            specBalancedLoop (openKindOf c :: List.map openKindOf els) cs from by
        simp only [specBalancedLoop, hk]]
      have hinv : ∀ x ∈ (BalancedStack.push ⟨els, hist⟩ c).elements,
          x = '(' ∨ x = '{' ∨ x = '[' := by
        intro x hx
        have hx' : x = c ∨ x ∈ els := by
          simpa [BalancedStack.push, List.mem_cons] using hx
        rcases hx' with rfl | hx'
        · exact hc
        · exact hst x hx'
      simpa [BalancedStack.push] using ih (BalancedStack.push ⟨els, hist⟩ c) hinv
    · by_cases hclose : (c == ')' || c == '}' || c == ']') = true
      · have hc : c = ')' ∨ c = '}' ∨ c = ']' := by
          simp only [Bool.or_eq_true, beq_iff_eq] at hclose
          tauto
        cases els with
        | nil => rcases hc with rfl | rfl | rfl <;> rfl
        | cons t rest =>
          have htop : t = '(' ∨ t = '{' ∨ t = '[' := hst t (List.mem_cons_self t rest)
          rcases hc with rfl | rfl | rfl <;> rcases htop with rfl | rfl | rfl
          · show (isBalancedLoop ⟨rest, '(' :: hist⟩ cs).1 =
              specBalancedLoop (List.map openKindOf rest) cs
            exact ih ⟨rest, '(' :: hist⟩ (fun x hx => hst x (List.mem_cons_of_mem _ hx))
          · rfl
          · rfl
          · rfl
          · show (isBalancedLoop ⟨rest, '{' :: hist⟩ cs).1 =
              specBalancedLoop (List.map openKindOf rest) cs
            exact ih ⟨rest, '{' :: hist⟩ (fun x hx => hst x (List.mem_cons_of_mem _ hx))
          · rfl
          · rfl
          · rfl
          · show (isBalancedLoop ⟨rest, '[' :: hist⟩ cs).1 =
              specBalancedLoop (List.map openKindOf rest) cs
            exact ih ⟨rest, '[' :: hist⟩ (fun x hx => hst x (List.mem_cons_of_mem _ hx))
      · have hp : ¬ c = '(' := fun h => hopen (by simp [h])
        have hcu : ¬ c = '{' := fun h => hopen (by simp [h])
        have hsq : ¬ c = '[' := fun h => hopen (by simp [h])
        have hp2 : ¬ c = ')' := fun h => hclose (by simp [h])
        have hcu2 : ¬ c = '}' := fun h => hclose (by simp [h])
        have hsq2 : ¬ c = ']' := fun h => hclose (by simp [h])
        have hko : openKind? c = none := by simp [openKind?, hp, hcu, hsq]
        have hkc : closeKind? c = none := by simp [closeKind?, hp2, hcu2, hsq2]
        rw [show isBalancedLoop ⟨els, hist⟩ (c :: cs) = isBalancedLoop ⟨els, hist⟩ cs from by
          simp only [isBalancedLoop]; rw [if_neg hopen, if_neg hclose]]
        rw [show specBalancedLoop (List.map openKindOf els) (c :: cs) =
              specBalancedLoop (List.map openKindOf els) cs from by
          simp only [specBalancedLoop, hko, hkc]]
        exact ih ⟨els, hist⟩ hst

theorem opLoop_eq (c : Char) (els : List Char) : ∀ hist out : List Char,
    opLoop els hist out c =
      (out ++ els.takeWhile (fun t => decide (precedence c ≤ precedence t)),
       els.dropWhile (fun t => decide (precedence c ≤ precedence t)),
       (els.takeWhile (fun t => decide (precedence c ≤ precedence t))).reverse ++ hist) := by
  induction els with
  | nil => intro hist out; simp [opLoop]
  | cons t rest ih =>
    intro hist out
    by_cases h : precedence c ≤ precedence t
    · rw [show opLoop (t :: rest) hist out c = opLoop rest (t :: hist) (out ++ [t]) c from by
        simp only [opLoop]; rw [if_pos h]]
      rw [ih (t :: hist) (out ++ [t])]
      simp [List.takeWhile_cons, List.dropWhile_cons, h]
    · rw [show opLoop (t :: rest) hist out c = (out, t :: rest, hist) from by
        simp only [opLoop]; rw [if_neg h]]
      simp [List.takeWhile_cons, List.dropWhile_cons, h]

/-- C1: the claim states that for every stack with non-empty
undo-history, `undo` removes the most recent history entry, pushes it
back as the new top and returns it even when the stack is at its
configured capacity.  The source code instead delegates the restore to
the capacity-checked `push`: at `count = MAX_SIZE` the history entry is
removed and reported as restored, but the element sequence is left
unchanged — the value is silently lost.  This theorem evaluates the
code at such a state (reached by nine pushes, one pop, one push):
`undo` returns the value 9 while the elements stay `[10, 8, ..., 1]`
and the history entry is gone. -/
theorem c1_undo_at_capacity_loses_value :
    Stack.push ((Stack.pop (Stack.pushAll (Stack.empty : Stack Nat)
        [1, 2, 3, 4, 5, 6, 7, 8, 9])).2) 10 =
      ⟨[10, 8, 7, 6, 5, 4, 3, 2, 1], [9]⟩ ∧
    (⟨[10, 8, 7, 6, 5, 4, 3, 2, 1], [9]⟩ : Stack Nat).count = MAX_SIZE ∧
    Stack.undo (⟨[10, 8, 7, 6, 5, 4, 3, 2, 1], [9]⟩ : Stack Nat) =
      (some 9, ⟨[10, 8, 7, 6, 5, 4, 3, 2, 1], []⟩) ∧
    Stack.peek (Stack.undo (⟨[10, 8, 7, 6, 5, 4, 3, 2, 1], [9]⟩ : Stack Nat)).2 ≠ some 9 := by
  decide

/-- C2: the claim states that `convert` on an input whose closing
bracket has no matching opener terminates and reports
`ConversionError::UnmatchedBracket`.  In the source the closing-bracket
loop has no emptiness guard: `peek()` on the empty stack returns
`undefined`, which differs from every opener, and the empty `pop()`
leaves the stack unchanged, so the loop body runs forever.  The first
conjunct shows the loop does not complete within any number of
iterations when the stack is empty; the second shows `convert` on the
input `")"` reaches exactly that diverging loop. -/
theorem c2_unmatched_close_diverges :
    (∀ (fuel : Nat) (hist out : List Char), closeLoopFuel fuel [] hist out = none) ∧
    convert ConvStack.empty ")" = none := by
  constructor
  · intro fuel
    induction fuel with
    | zero => intro hist out; rfl
    | succ n ih =>
      intro hist out
      exact ih hist (out ++ "undefined".data)
  · rfl

/-- C3: the claim states that each invocation of the two algorithms is
deterministic in its argument alone, using a stack private to the call.
The source `isBalanced` instead reads and mutates the module-level
shared `balancedStack`: a call on `"(("` leaves two opening brackets on
the global stack, after which a call on `"()"` returns `false`, while
the very same input from a fresh (empty) global returns `true`. -/
theorem c3_shared_global_stack_leaks_state :
    (isBalanced BalancedStack.empty "()").1 = true ∧
    (isBalanced ((isBalanced BalancedStack.empty "((").2) "()").1 = false ∧
    (isBalanced BalancedStack.empty "((").2 ≠ BalancedStack.empty := by
  refine ⟨rfl, rfl, by decide⟩

/-- C4: started from an empty stack, `isBalanced` computes exactly the
algorithm of the design document — push opening brackets, fail on a
closing bracket when the stack is empty or the popped kind mismatches
the closing glyph's kind, ignore other characters, and succeed at the
end iff the stack is empty (the kind-tagged `specBalanced` states those
words directly) — and in particular the four reference values hold. -/
theorem c4_isBalanced_matches_spec :
    (∀ e : String, (isBalanced BalancedStack.empty e).1 = specBalanced e) ∧
    (isBalanced BalancedStack.empty "()").1 = true ∧
    (isBalanced BalancedStack.empty "({[]})").1 = true ∧
    (isBalanced BalancedStack.empty "([)]").1 = false ∧
    (isBalanced BalancedStack.empty "(()").1 = false := by
  refine ⟨?_, rfl, rfl, rfl, rfl⟩
  intro e
  exact balanced_refines e.data BalancedStack.empty (by simp [BalancedStack.empty])

/-- C5: when an operator is scanned, `convert` pops to the output
exactly the maximal prefix of the stack whose precedence is at least
the scanned operator's, then pushes the operator; the precedence
function maps `*` and `/` to 2, `+` and `-` to 1 and everything else
to 0, and exactly the four characters `+ - * /` are classified as
operators. -/
theorem c5_operator_discipline :
    (precedence '*' = 2 ∧ precedence '/' = 2 ∧ precedence '+' = 1 ∧ precedence '-' = 1) ∧
    (∀ d : Char, d ≠ '*' → d ≠ '/' → d ≠ '+' → d ≠ '-' →
      precedence d = 0 ∧ isOperator d = false) ∧
    (∀ d : Char, isOperator d = true ↔ (d = '+' ∨ d = '-' ∨ d = '*' ∨ d = '/')) ∧
    (∀ (c : Char) (els hist out : List Char),
      opLoop els hist out c =
        (out ++ els.takeWhile (fun t => decide (precedence c ≤ precedence t)),
         els.dropWhile (fun t => decide (precedence c ≤ precedence t)),
         (els.takeWhile (fun t => decide (precedence c ≤ precedence t))).reverse ++ hist)) ∧
    (∀ (c : Char) (st : ConvStack) (out cs : List Char), isOperator c = true →
      convertLoop st out (c :: cs) =
        convertLoop
          (ConvStack.push ⟨(opLoop st.elements st.history out c).2.1,
                           (opLoop st.elements st.history out c).2.2⟩ c)
          (opLoop st.elements st.history out c).1 cs) := by
  refine ⟨⟨rfl, rfl, rfl, rfl⟩, ?_, ?_, ?_, ?_⟩
  · intro d h1 h2 h3 h4
    constructor
    · simp [precedence, h1, h2, h3, h4]
    · simp [isOperator, h1, h2, h3, h4]
  · intro d
    constructor
    · intro hd
      simp only [isOperator, Bool.or_eq_true, beq_iff_eq] at hd
      tauto
    · intro hd
      rcases hd with rfl | rfl | rfl | rfl <;> rfl
  · intro c els hist out
    exact opLoop_eq c els hist out
  · intro c st out cs hc
    have hd : c = '+' ∨ c = '-' ∨ c = '*' ∨ c = '/' := by
      simp only [isOperator, Bool.or_eq_true, beq_iff_eq] at hc
      tauto
    obtain ⟨els, hist⟩ := st
    rcases hd with rfl | rfl | rfl | rfl <;> rfl

/-- Witness for C5: the operator facts instantiated at the non-operator
character `A` and the operator step instantiated at scanning `+` with
`*` and `(` on the stack. -/
theorem c5_operator_discipline_witness :
    (precedence 'A' = 0 ∧ isOperator 'A' = false) ∧
    convertLoop (⟨['*', '('], []⟩ : ConvStack) ['A', 'B'] ['+', 'C'] =
      convertLoop
        (ConvStack.push ⟨(opLoop (⟨['*', '('], []⟩ : ConvStack).elements
                            (⟨['*', '('], []⟩ : ConvStack).history ['A', 'B'] '+').2.1,
                         (opLoop (⟨['*', '('], []⟩ : ConvStack).elements
                            (⟨['*', '('], []⟩ : ConvStack).history ['A', 'B'] '+').2.2⟩ '+')
        (opLoop (⟨['*', '('], []⟩ : ConvStack).elements
           (⟨['*', '('], []⟩ : ConvStack).history ['A', 'B'] '+').1 ['C'] :=
  ⟨c5_operator_discipline.2.1 'A' (by decide) (by decide) (by decide) (by decide),
   c5_operator_discipline.2.2.2.2 '+' ⟨['*', '('], []⟩ ['A', 'B'] ['C'] (by decide)⟩

/-- C6 counterexample: the claim's third reference equality fails on
the code — run with an initially empty stack, `convert` on
the third reference input produces the postfix string in which the
final division is applied before the top-level addition (first conjunct
below), which differs from the string the claim specifies (second
conjunct below). -/
theorem c6_third_equality_fails :
    (convert ConvStack.empty "A+((B*C)-(D/E))/F").map Prod.fst = some "ABC*DE/-F/+" ∧
    ¬ (convert ConvStack.empty "A+((B*C)-(D/E))/F").map Prod.fst = some "ABC*DE/-+F/" := by
  constructor
  · rfl
  · decide

/-- C6 amended: the converter, run with an initially empty stack,
returns `"ABC*+"` on `"A+B*C"`, `"ABC+*D/"` on `"A*(B+C)/D"`, and on
`"A+((B*C)-(D/E))/F"` the string stated in the third conjunct below,
which differs from the one the claim specifies. -/
theorem c6_reference_conversions :
    (convert ConvStack.empty "A+B*C").map Prod.fst = some "ABC*+" ∧
    (convert ConvStack.empty "A*(B+C)/D").map Prod.fst = some "ABC+*D/" ∧
    (convert ConvStack.empty "A+((B*C)-(D/E))/F").map Prod.fst = some "ABC*DE/-F/+" := by
  refine ⟨rfl, rfl, rfl⟩

/-- C7: failed stack operations are atomic — `pop` on a stack with
`count = 0` returns `undefined` and leaves the whole state (elements
and history) unchanged, and `push` at `count = MAX_SIZE` (the
configured capacity) leaves the whole state unchanged. -/
theorem c7_failed_ops_unchanged {T : Type} (s : Stack T) (v : T) :
    (s.count = 0 → Stack.pop s = (none, s)) ∧
    (s.count = MAX_SIZE → Stack.push s v = s) := by
  obtain ⟨els, hist⟩ := s
  constructor
  · intro h0
    have hnil : els = [] := List.length_eq_zero.mp h0
    subst hnil
    rfl
  · intro hfull
    have hge : MAX_SIZE ≤ els.length := by
      have : els.length = MAX_SIZE := hfull
      omega
    simp [Stack.push, hge]

/-- Witness for C7: the empty stack for the underflow half and a full
nine-element stack for the overflow half. -/
theorem c7_failed_ops_unchanged_witness :
    Stack.pop (Stack.empty : Stack Nat) = (none, Stack.empty) ∧
    Stack.push (⟨[9, 8, 7, 6, 5, 4, 3, 2, 1], []⟩ : Stack Nat) 10 =
      ⟨[9, 8, 7, 6, 5, 4, 3, 2, 1], []⟩ :=
  ⟨(c7_failed_ops_unchanged (Stack.empty : Stack Nat) 0).1 rfl,
   (c7_failed_ops_unchanged (⟨[9, 8, 7, 6, 5, 4, 3, 2, 1], []⟩ : Stack Nat) 10).2 (by decide)⟩

/-- C8: the LIFO law — pushing any sequence of values within capacity
onto an initially empty stack and then popping that many times returns
exactly the pushed values in reverse order of insertion. -/
theorem c8_lifo_law {T : Type} (vs : List T) (h : vs.length ≤ MAX_SIZE) :
    (Stack.popN (Stack.pushAll (Stack.empty : Stack T) vs) vs.length).1 = vs.reverse := by
  have h1 : (Stack.pushAll (Stack.empty : Stack T) vs).elements = vs.reverse := by
    simpa [Stack.empty] using
      (stack_pushAll_elements vs (Stack.empty : Stack T) (by simpa [Stack.empty] using h)).1
  have h2 := stack_popN_of_elements vs.reverse (Stack.pushAll (Stack.empty : Stack T) vs) h1
  rw [List.length_reverse] at h2
  exact h2

/-- Witness for C8: pushing `[1, 2, 3]` and popping three times
returns `[3, 2, 1]`. -/
theorem c8_lifo_law_witness :
    ([1, 2, 3] : List Nat).length ≤ MAX_SIZE ∧
    (Stack.popN (Stack.pushAll (Stack.empty : Stack Nat) [1, 2, 3])
      ([1, 2, 3] : List Nat).length).1 = ([1, 2, 3] : List Nat).reverse :=
  ⟨by decide, c8_lifo_law [1, 2, 3] (by decide)⟩

/-- C9: multi-level undo — on a stack holding at least two elements
(within capacity), the sequence pop, pop, undo, undo returns the two
top values and then restores them in reverse order of removal (the most
recently popped first), leaving the element sequence and the history
exactly as they were before the two pops. -/
theorem c9_multi_level_undo {T : Type} (a b : T) (rest h : List T)
    (hlen : (a :: b :: rest).length ≤ MAX_SIZE) :
    Stack.pop (⟨a :: b :: rest, h⟩ : Stack T) = (some a, ⟨b :: rest, a :: h⟩) ∧
    Stack.pop (⟨b :: rest, a :: h⟩ : Stack T) = (some b, ⟨rest, b :: a :: h⟩) ∧
    Stack.undo (⟨rest, b :: a :: h⟩ : Stack T) = (some b, ⟨b :: rest, a :: h⟩) ∧
    Stack.undo (⟨b :: rest, a :: h⟩ : Stack T) = (some a, ⟨a :: b :: rest, h⟩) := by
  have hr : rest.length + 2 ≤ MAX_SIZE := by simpa using hlen
  refine ⟨rfl, rfl, ?_, ?_⟩
  · show (some b, Stack.push (⟨rest, a :: h⟩ : Stack T) b) = _
    rw [stack_push_lt _ _ (by show rest.length < MAX_SIZE; omega)]
  · show (some a, Stack.push (⟨b :: rest, h⟩ : Stack T) a) = _
    rw [stack_push_lt _ _ (by show (b :: rest).length < MAX_SIZE; simp; omega)]

/-- Witness for C9: pop, pop, undo, undo on the two-element stack
`[20, 10]` (top first) with empty history. -/
theorem c9_multi_level_undo_witness :
    ((20 : Nat) :: 10 :: []).length ≤ MAX_SIZE ∧
    (Stack.pop (⟨[20, 10], []⟩ : Stack Nat) = (some 20, ⟨[10], [20]⟩) ∧
     Stack.pop (⟨[10], [20]⟩ : Stack Nat) = (some 10, ⟨[], [10, 20]⟩) ∧
     Stack.undo (⟨[], [10, 20]⟩ : Stack Nat) = (some 10, ⟨[10], [20]⟩) ∧
     Stack.undo (⟨[10], [20]⟩ : Stack Nat) = (some 20, ⟨[20, 10], []⟩)) :=
  ⟨by decide, c9_multi_level_undo 20 10 [] [] (by decide)⟩

/-- C10: during conversion a closing bracket is matched against any
opener without comparing kinds — the closing-bracket loop stops at
whichever of `( [ {` is on top and the scan treats every closing glyph
identically — so the mismatched input `"[A+B)"` converts without error
to `"AB+"`. -/
theorem c10_close_ignores_kind (b : Char) (els hist out : List Char)
    (st : ConvStack) (cs : List Char) (c c' : Char)
    (hb : isOpeningBracket b = true) (hc : isClosingBracket c = true)
    (hc' : isClosingBracket c' = true) :
    closeLoop (b :: els) hist out = some (out, b :: els, hist) ∧
    convertLoop st out (c :: cs) = convertLoop st out (c' :: cs) ∧
    (convert ConvStack.empty "[A+B)").map Prod.fst = some "AB+" := by
  refine ⟨?_, ?_, rfl⟩
  · unfold closeLoop
    rw [if_pos hb]
  · have hd : c = ')' ∨ c = '}' ∨ c = ']' := by
      simp only [isClosingBracket, Bool.or_eq_true, beq_iff_eq] at hc
      tauto
    have hd' : c' = ')' ∨ c' = '}' ∨ c' = ']' := by
      simp only [isClosingBracket, Bool.or_eq_true, beq_iff_eq] at hc'
      tauto
    obtain ⟨e2, h2⟩ := st
    rcases hd with rfl | rfl | rfl <;> rcases hd' with rfl | rfl | rfl <;> rfl

/-- Witness for C10: the loop stopped by the square opener `[`, the
identical handling of `)` and `}`, and the concrete conversion. -/
theorem c10_close_ignores_kind_witness :
    closeLoop ['['] [] [] = some ([], ['['], []) ∧
    convertLoop ConvStack.empty [] [')'] = convertLoop ConvStack.empty [] ['}'] ∧
    (convert ConvStack.empty "[A+B)").map Prod.fst = some "AB+" :=
  c10_close_ignores_kind '[' [] [] [] ConvStack.empty [] ')' '}' (by decide) (by decide)
    (by decide)
